import Mathlib

/-!
Verification development for the `ts-config` repository.

The repository's core is the `TSConfig` class in `src/TSConfig.ts` (the
validation-hardened variant: memoized project root, syntactic JSON check in
`getConfigRawContent`, cache key computed from the raw content read once per
`parse()` call).  This file gives a shallow embedding of that class and of the
behaviour of its external collaborators as fixed by the spec:

* JavaScript values exchanged by the class are modelled by the inductive
  `Json` type (JS strings are `Json.str`, parsed configs are `Json.obj`, ...);
  `JSON.parse` / `JSON.stringify` are modelled by the executable `jsonParse` /
  `jsonStringify` below, restricted to the JSON fragment the claims exercise.
* Node's `path.resolve` is modelled by `pathResolve` (posix semantics:
  an absolute second argument wins, `.` and `..` segments are normalized).
* The external `InFilesCache` collaborator is modelled per the spec's
  collaborator contract (`get(key) -> StoredValue | absent`,
  `set(key, value)`): an association list from `CacheParams` to the stored
  string, where `set` shadows and `get` returns the stored value.
* `findPathToFile("package.json")` and `parseJsonConfigFileContent` are
  external collaborators carried in the environment `Env`.
* Mutable instance state (`appRootPath` memo, the cache store) together with
  instrumentation counters (number of file reads, of `findPathToFile`
  invocations, of validator invocations) is threaded explicitly through `St`.
-/

set_option maxRecDepth 4096

namespace TSC

/-- Model of JavaScript/JSON values.  JS strings are `str`, numbers `num`
(restricted to integers, which is all the claims exercise), objects `obj`. -/
inductive Json where
  | null : Json
  | bool (b : Bool) : Json
  | num (n : Int) : Json
  | str (s : String) : Json
  | arr (elems : List Json) : Json
  | obj (fields : List (String × Json)) : Json
deriving Repr

/-- Left brace character, kept out of string literals. -/
def lbrace : Char := Char.ofNat 123

/-- Right brace character, kept out of string literals. -/
def rbrace : Char := Char.ofNat 125

/-- Digits of a natural number, most significant first (fuel-indexed). -/
def natDigitsAux : Nat → Nat → List Char
  | 0, _ => []
  | fuel + 1, n =>
    if n = 0 then []
    else natDigitsAux fuel (n / 10) ++ [Char.ofNat (48 + n % 10)]

/-- Decimal rendering of a natural number. -/
def natRepr (n : Nat) : List Char :=
  if n = 0 then ['0'] else natDigitsAux n n

/-- Decimal rendering of an integer (model of JS number stringification for
integral values). -/
def intRepr : Int → List Char
  | Int.ofNat n => natRepr n
  | Int.negSucc n => '-' :: natRepr (n + 1)

mutual

/-- Model of `JSON.stringify` on `Json` values. -/
def jsonStringify : Json → String
  | Json.null => "null"
  | Json.bool true => "true"
  | Json.bool false => "false"
  | Json.num n => String.mk (intRepr n)
  | Json.str s => "\"" ++ s ++ "\""
  | Json.arr elems => "[" ++ stringifyElems elems ++ "]"
  | Json.obj fields =>
      String.mk [lbrace] ++ stringifyFields fields ++ String.mk [rbrace]

/-- Comma-separated serialization of array elements. -/
def stringifyElems : List Json → String
  | [] => ""
  | [j] => jsonStringify j
  | j :: rest => jsonStringify j ++ "," ++ stringifyElems rest

/-- Comma-separated serialization of object fields. -/
def stringifyFields : List (String × Json) → String
  | [] => ""
  | [(k, v)] => "\"" ++ k ++ "\":" ++ jsonStringify v
  | (k, v) :: rest =>
      "\"" ++ k ++ "\":" ++ jsonStringify v ++ "," ++ stringifyFields rest

end

/-- Whitespace test for the JSON reader. -/
def isWs (c : Char) : Bool :=
  c = ' ' || c = '\n' || c = '\t' || c = '\r'

/-- Skip leading whitespace. -/
def skipWs : List Char → List Char
  | [] => []
  | c :: cs => if isWs c then skipWs cs else c :: cs

/-- Strip an expected leading character sequence, or fail. -/
def stripLead : List Char → List Char → Option (List Char)
  | [], cs => some cs
  | _ :: _, [] => none
  | e :: es, c :: cs => if c = e then stripLead es cs else none

/-- Read a run of decimal digits (at least one) into a number. -/
def readDigits (acc : Nat) : List Char → (Nat × List Char)
  | [] => (acc, [])
  | c :: cs =>
    if '0' ≤ c ∧ c ≤ '9' then readDigits (acc * 10 + (c.toNat - 48)) cs
    else (acc, c :: cs)

/-- Whether a character starts a decimal digit run. -/
def isDigitChar (c : Char) : Bool := '0' ≤ c ∧ c ≤ '9'

/-- Read the body of a JSON string literal up to the closing quote
(escape sequences are not modelled; the claims never exercise them). -/
def readStrBody : List Char → Option (List Char × List Char)
  | [] => none
  | c :: cs =>
    if c = '"' then some ([], cs)
    else if c = '\\' then none
    else match readStrBody cs with
      | some (body, rest) => some (c :: body, rest)
      | none => none

mutual

/-- Fuel-indexed model of `JSON.parse`: reads one JSON value and returns the
remaining input, or fails on malformed text. -/
def parseVal : Nat → List Char → Option (Json × List Char)
  | 0, _ => none
  | fuel + 1, cs =>
    match skipWs cs with
    | [] => none
    | c :: rest =>
      if c = 'n' then
        match stripLead ['u', 'l', 'l'] rest with
        | some rest2 => some (Json.null, rest2)
        | none => none
      else if c = 't' then
        match stripLead ['r', 'u', 'e'] rest with
        | some rest2 => some (Json.bool true, rest2)
        | none => none
      else if c = 'f' then
        match stripLead ['a', 'l', 's', 'e'] rest with
        | some rest2 => some (Json.bool false, rest2)
        | none => none
      else if c = '"' then
        match readStrBody rest with
        | some (body, rest2) => some (Json.str (String.mk body), rest2)
        | none => none
      else if c = '-' then
        match rest with
        | [] => none
        | d :: _ =>
          if isDigitChar d then
            let (n, rest2) := readDigits 0 rest
            some (Json.num (-(Int.ofNat n)), rest2)
          else none
      else if isDigitChar c then
        let (n, rest2) := readDigits 0 (c :: rest)
        some (Json.num (Int.ofNat n), rest2)
      else if c = '[' then
        match skipWs rest with
        | ']' :: rest2 => some (Json.arr [], rest2)
        | _ =>
          match parseElems fuel rest with
          | some (elems, rest2) => some (Json.arr elems, rest2)
          | none => none
      else if c = lbrace then
        match skipWs rest with
        | d :: rest2 =>
          if d = rbrace then some (Json.obj [], rest2)
          else match parseFields fuel rest with
            | some (fields, rest3) => some (Json.obj fields, rest3)
            | none => none
        | [] => none
      else none

/-- Fuel-indexed reader for the elements of a JSON array (after `[`). -/
def parseElems : Nat → List Char → Option (List Json × List Char)
  | 0, _ => none
  | fuel + 1, cs =>
    match parseVal fuel cs with
    | none => none
    | some (j, rest) =>
      match skipWs rest with
      | ',' :: rest2 =>
        match parseElems fuel rest2 with
        | some (elems, rest3) => some (j :: elems, rest3)
        | none => none
      | ']' :: rest2 => some ([j], rest2)
      | _ => none

/-- Fuel-indexed reader for the fields of a JSON object (after the opening
brace). -/
def parseFields : Nat → List Char → Option (List (String × Json) × List Char)
  | 0, _ => none
  | fuel + 1, cs =>
    match skipWs cs with
    | '"' :: rest =>
      match readStrBody rest with
      | none => none
      | some (key, rest2) =>
        match skipWs rest2 with
        | ':' :: rest3 =>
          match parseVal fuel rest3 with
          | none => none
          | some (v, rest4) =>
            match skipWs rest4 with
            | ',' :: rest5 =>
              match parseFields fuel rest5 with
              | some (fields, rest6) =>
                  some ((String.mk key, v) :: fields, rest6)
              | none => none
            | d :: rest5 =>
              if d = rbrace then some ([(String.mk key, v)], rest5)
              else none
            | [] => none
        | _ => none
    | _ => none

end

/-- Model of `JSON.parse` on a whole string: the text must be a single JSON
value followed only by whitespace. -/
def jsonParse (s : String) : Option Json :=
  match parseVal (2 * s.data.length + 4) s.data with
  | some (j, rest) => if skipWs rest = [] then some j else none
  | none => none

/-! ### Model of Node's `path.resolve` (posix semantics)

A path is split into `/`-separated segments; `path.resolve(base, p)` starts
from `p` when `p` is absolute and from `base ++ p` otherwise, then drops empty
and `.` segments and lets `..` pop the previous segment, producing a leading
`/` followed by the cleaned segments. -/

/-- Split a character list into `/`-separated segments. -/
def splitSegs : List Char → List (List Char)
  | [] => [[]]
  | c :: cs =>
    if c = '/' then [] :: splitSegs cs
    else match splitSegs cs with
      | s :: rest => (c :: s) :: rest
      | [] => [[c]]

/-- Join segments with `/` separators. -/
def joinSegs : List (List Char) → List Char
  | [] => []
  | [s] => s
  | s :: rest => s ++ '/' :: joinSegs rest

/-- One step of posix path normalization: drop empty and `.` segments, let
`..` pop the previously accepted segment (the accumulator is reversed). -/
def normStep (acc : List (List Char)) (s : List Char) : List (List Char) :=
  if s = [] ∨ s = ['.'] then acc
  else if s = ['.', '.'] then acc.tail
  else s :: acc

/-- Posix path-segment normalization. -/
def normSegs (segs : List (List Char)) : List (List Char) :=
  (segs.foldl normStep []).reverse

/-- Whether a character list starts with `/` (an absolute posix path). -/
def isAbsC : List Char → Bool
  | '/' :: _ => true
  | _ => false

/-- Model of `path.resolve(base, p)` on character lists. -/
def resolveC (base p : List Char) : List Char :=
  let segs := if isAbsC p then splitSegs p else splitSegs base ++ splitSegs p
  '/' :: joinSegs (normSegs segs)

/-- Model of Node's `path.resolve(base, p)` (posix, `base` assumed absolute
as returned by the project-root discovery collaborator). -/
def pathResolve (base p : String) : String :=
  String.mk (resolveC base.data p.data)

/-- A segment produced by normalization: nonempty, not `.` or `..`, and free
of separators. -/
def CleanSeg (s : List Char) : Prop :=
  s ≠ [] ∧ s ≠ ['.'] ∧ s ≠ ['.', '.'] ∧ '/' ∉ s

/-! ### The `TSConfig` class and its collaborators -/

/-- Model of a TypeScript `Diagnostic` as far as the class observes it:
a message and an opaque numeric code. -/
structure Diagnostic where
  messageText : String
  code : Nat
deriving DecidableEq, Repr

/-- Result shape of `parseJsonConfigFileContent`: the normalized options and
the diagnostics list. -/
structure ParsedCommandLine where
  options : Json
  errors : List Diagnostic

/-- `CacheParams` from `@j.u.p.iter/in-files-cache`, exactly as built by
`TSConfig.getCacheParams`. -/
structure CacheParams where
  filePath : String
  fileContent : String
  fileExtension : String
deriving DecidableEq, Repr

/-- The error taxonomy surfaced by the class.  `invalidPath` models the
`InvalidPathError` thrown when the config file is missing (the spec's
`ConfigNotFoundError`), `invalidJson` the `InvalidJsonError`, `tsParse` the
`TSParseError` carrying the formatted message, the resolved path and the raw
diagnostics, and `fsError` any other file-system failure propagated
unchanged with its error code. -/
inductive TSError where
  | invalidPath (path : String) : TSError
  | invalidJson (path : String) : TSError
  | tsParse (formattedMessage : String) (path : String)
      (diagnostics : List Diagnostic) : TSError
  | fsError (code : String) : TSError
  | jsError (message : String) : TSError
deriving DecidableEq, Repr

/-- Modelled from the spec: the error message of the config-not-found error
carries the resolved absolute path (`ConfigNotFoundError(resolvedPath)`
"carrying the resolved absolute path in its message"); the concrete wording
follows the repository's own earlier in-repo variant of the same throw site.
The `InvalidPathError` / `InvalidJsonError` classes live in the external
`@j.u.p.iter/custom-error` package. -/
def errMessage : TSError → String
  | TSError.invalidPath p => "There is no typescript config by this path: " ++ p
  | TSError.invalidJson p => "Config by this path is not a valid JSON: " ++ p
  | TSError.tsParse formatted _ _ => formatted
  | TSError.fsError code => code
  | TSError.jsError m => m

/-- `SystemErrorCode.NO_FILE_OR_DIRECTORY` (Node's ENOENT). -/
def NO_FILE_OR_DIRECTORY : String := "ENOENT"

/-- Modelled from the spec: `formatDiagnostics` (external TypeScript API)
folds all diagnostics into one human-readable message. -/
def formatDiagnostics (diagnostics : List Diagnostic) : String :=
  String.join (diagnostics.map (fun d => d.messageText ++ "\n"))

/-- The external collaborators of one `parse()` run, per the spec's
collaborator contracts: the directory found by
`findPathToFile("package.json")`, the file system as a sequence of
`readFileSync` outcomes (the n-th read of the instance returns `fs n`:
either the raw text or an error code), and the semantic validator
`parseJsonConfigFileContent(json, sys, basePath)`. -/
structure Env where
  findDirPath : String
  fs : Nat → Except String String
  parseJsonConfigFileContent : Json → String → ParsedCommandLine

/-- The immutable per-instance configuration set by the constructor. -/
structure TSConfig where
  configPath : String
  cacheFolderPath : String

/-- The constructor options of `TSConfig`. -/
structure TSConfigOptions where
  configPath : Option String
  cacheFolderPath : String

/-- The class's `defaultPathToConfig` field. -/
def defaultPathToConfig : String := "./tsconfig.json"

/-- The `TSConfig` constructor:
`this.configPath = options.configPath || this.defaultPathToConfig` (a missing
or empty — JS-falsy — `configPath` falls back to the default). -/
def TSConfig.create (options : TSConfigOptions) : TSConfig :=
  { configPath :=
      match options.configPath with
      | some p => if p = "" then defaultPathToConfig else p
      | none => defaultPathToConfig
    cacheFolderPath := options.cacheFolderPath }

/-- The mutable state threaded through one instance's lifetime: the
`appRootPath` memo field and the external cache's store, plus three
instrumentation counters (how many `readFileSync`, `findPathToFile` and
`parseJsonConfigFileContent` calls happened so far). -/
structure St where
  appRootPath : Option String
  cache : List (CacheParams × String)
  reads : Nat
  findCalls : Nat
  valCalls : Nat

/-- The external `InFilesCache.get`, per the spec's collaborator contract
`get(key) -> StoredValue | absent`: return the value most recently stored
under the key, or `none`. -/
def cacheGet (cache : List (CacheParams × String)) (key : CacheParams) :
    Option String :=
  match cache.find? (fun kv => kv.1 == key) with
  | some kv => some kv.2
  | none => none

/-- The external `InFilesCache.set`, per the spec's collaborator contract:
store the value under the key (shadowing any earlier entry). -/
def cacheSet (cache : List (CacheParams × String)) (key : CacheParams)
    (value : String) : List (CacheParams × String) :=
  (key, value) :: cache

/-- `TSConfig.getAppRootFolderPath`: return the memoized root if present,
otherwise call `findPathToFile("package.json")`, memoize and return its
`dirPath`. -/
def getAppRootFolderPath (env : Env) (st : St) : String × St :=
  match st.appRootPath with
  | some p => (p, st)
  | none =>
      (env.findDirPath,
        { st with appRootPath := some env.findDirPath,
                  findCalls := st.findCalls + 1 })

/-- `TSConfig.resolvePathToConfig`: resolve the configured path against the
app root folder. -/
def resolvePathToConfig (env : Env) (cfg : TSConfig) (st : St) :
    String × St :=
  let r := getAppRootFolderPath env st
  (pathResolve r.1 cfg.configPath, r.2)

/-- `TSConfig.getConfigRawContent`: resolve the path, read the file
(`readFileSync(path, "utf8")`), syntactically validate the text with
`JSON.parse`; a read failure with code `NO_FILE_OR_DIRECTORY` becomes
`InvalidPathError(path)`, any other failure propagates unchanged, and
malformed JSON becomes `InvalidJsonError(path)`. -/
def getConfigRawContent (env : Env) (cfg : TSConfig) (st : St) :
    Except TSError String × St :=
  let r := resolvePathToConfig env cfg st
  let pathToConfig := r.1
  let st1 := r.2
  match env.fs st1.reads with
  | Except.ok fileContent =>
      (match jsonParse fileContent with
        | some _ => Except.ok fileContent
        | none => Except.error (TSError.invalidJson pathToConfig),
        { st1 with reads := st1.reads + 1 })
  | Except.error code =>
      (if code = NO_FILE_OR_DIRECTORY then
          Except.error (TSError.invalidPath pathToConfig)
        else Except.error (TSError.fsError code),
        { st1 with reads := st1.reads + 1 })

/-- `TSConfig.getCacheParams(configRawContent)`: the cache key from the app
root, the resolved config path and the raw content handed in by `parse`. -/
def getCacheParams (env : Env) (cfg : TSConfig) (configRawContent : String)
    (st : St) : CacheParams × St :=
  let r := getAppRootFolderPath env st
  let r2 := resolvePathToConfig env cfg r.2
  ({ filePath := pathResolve r.1 r2.1,
     fileContent := configRawContent,
     fileExtension := ".json" }, r2.2)

/-- `TSConfig.parseTSConfig(configRawContent)`: run the semantic validator
`parseJsonConfigFileContent(JSON.parse(content), sys, resolvedPath)`; on a
non-empty diagnostics list throw `TSParseError(formatDiagnostics(errors),
resolvedPath, errors)`, otherwise return `JSON.stringify(options)`. -/
def parseTSConfig (env : Env) (cfg : TSConfig) (configRawContent : String)
    (st : St) : Except TSError String × St :=
  let r := resolvePathToConfig env cfg st
  let resolvedPathToConfig := r.1
  let st1 := r.2
  match jsonParse configRawContent with
  | none => (Except.error (TSError.jsError "SyntaxError"), st1)
  | some json =>
      let result := env.parseJsonConfigFileContent json resolvedPathToConfig
      let st2 := { st1 with valCalls := st1.valCalls + 1 }
      if result.errors.length ≠ 0 then
        (Except.error (TSError.tsParse (formatDiagnostics result.errors)
          resolvedPathToConfig result.errors), st2)
      else
        (Except.ok (jsonStringify result.options), st2)

/-- The cache-miss tail of `TSConfig.parse`: validate, write the serialized
result to the cache under a key recomputed from the same raw content, and
return `JSON.parse(config)`. -/
def parseMiss (env : Env) (cfg : TSConfig) (configRawContent : String)
    (st : St) : Except TSError Json × St :=
  match parseTSConfig env cfg configRawContent st with
  | (Except.error e, st1) => (Except.error e, st1)
  | (Except.ok config, st1) =>
      let r := getCacheParams env cfg configRawContent st1
      let st2 := { r.2 with cache := cacheSet r.2.cache r.1 config }
      match jsonParse config with
      | some j => (Except.ok j, st2)
      | none => (Except.error (TSError.jsError "SyntaxError"), st2)

/-- `TSConfig.parse`, the sole public operation: read the raw content,
build the cache key from it, return a truthy cached value immediately
(a JS string, hence `Json.str`), otherwise validate, cache and return the
parsed result.  (`initCache` only constructs the cache collaborator and has
no observable effect in this model.) -/
def parse (env : Env) (cfg : TSConfig) (st : St) : Except TSError Json × St :=
  match getConfigRawContent env cfg st with
  | (Except.error e, st1) => (Except.error e, st1)
  | (Except.ok configRawContent, st1) =>
      let r := getCacheParams env cfg configRawContent st1
      let st2 := r.2
      match cacheGet st2.cache r.1 with
      | some configFromCache =>
          if configFromCache = "" then parseMiss env cfg configRawContent st2
          else (Except.ok (Json.str configFromCache), st2)
      | none => parseMiss env cfg configRawContent st2

/-- The app root a call observes: the memo if set, else the collaborator's
answer. -/
def rootOf (env : Env) (st : St) : String :=
  st.appRootPath.getD env.findDirPath

/-- The resolved absolute config path a call observes. -/
def resolvedPathOf (env : Env) (cfg : TSConfig) (st : St) : String :=
  pathResolve (rootOf env st) cfg.configPath

/-- The cache key a call builds from raw content `c`, as `getCacheParams`
computes it. -/
def cacheKeyOf (env : Env) (cfg : TSConfig) (st : St) (c : String) :
    CacheParams :=
  { filePath := pathResolve (rootOf env st) (resolvedPathOf env cfg st)
    fileContent := c
    fileExtension := ".json" }

/-- State after the root lookup: memo filled, find counter bumped iff the
memo was empty. -/
def postRoot (env : Env) (st : St) : St :=
  { st with appRootPath := some (rootOf env st)
            findCalls := st.findCalls + (if st.appRootPath.isSome then 0 else 1) }

/-- State change of one `readFileSync` call. -/
def bumpRead (st : St) : St := { st with reads := st.reads + 1 }

/-- State change of one validator call. -/
def bumpVal (st : St) : St := { st with valCalls := st.valCalls + 1 }

/-- The post-state of a successful miss: validator counted, root memo
filled, and the serialized config written under the key built from the raw
content `c` of this same call. -/
def stAfterWrite (env : Env) (cfg : TSConfig) (st : St) (c config : String) :
    St :=
  { bumpVal (postRoot env st) with
      cache := cacheSet st.cache (cacheKeyOf env cfg st c) config }

/-- A whole lifetime of one orchestrator instance: a sequence of `parse()`
calls (each possibly under a different environment), threading the instance
state. -/
def runParses (cfg : TSConfig) : List Env → St → St
  | [], st => st
  | env :: rest, st => runParses cfg rest (parse env cfg st).2

/-- A concrete healthy environment: the config file reads as the JSON text
`7` forever and the validator accepts everything, normalizing to the number
`5`. -/
def cexEnv : Env :=
  { findDirPath := "/app"
    fs := fun _ => Except.ok "7"
    parseJsonConfigFileContent := fun _ _ =>
      { options := Json.num 5, errors := [] } }

/-- A concrete instance configuration. -/
def cexCfg : TSConfig :=
  TSConfig.create { configPath := some "tsconfig.json",
                    cacheFolderPath := "/cache" }

/-- The pristine instance state: memo empty, cache empty, no calls yet. -/
def cexSt0 : St :=
  { appRootPath := none, cache := [], reads := 0, findCalls := 0,
    valCalls := 0 }

/-- A state whose root memo is already filled. -/
def someRootSt : St := { cexSt0 with appRootPath := some "/app" }

/-- An environment whose validator rejects every config with one
diagnostic. -/
def rejEnv : Env :=
  { cexEnv with
      parseJsonConfigFileContent := fun _ _ =>
        { options := Json.null,
          errors := [{ messageText := "bad option", code := 1 }] } }

/-- An environment where the config file is missing (every read fails with
ENOENT). -/
def missingEnv : Env :=
  { cexEnv with fs := fun _ => Except.error "ENOENT" }

/-- An environment where every read fails with a permission error. -/
def eaccesEnv : Env :=
  { cexEnv with fs := fun _ => Except.error "EACCES" }

/-- An environment where the config file holds malformed JSON text. -/
def badJsonEnv : Env :=
  { cexEnv with fs := fun _ => Except.ok "not json" }

/-- A state whose cache store holds a falsy (empty-string) value under the
very key `cexEnv`/`cexCfg` compute. -/
def emptyCacheHitSt : St :=
  { cexSt0 with
      cache := [({ filePath := "/app/tsconfig.json", fileContent := "7",
                   fileExtension := ".json" }, "")] }

/-- A file system agreeing with `cexEnv` on the first read only: the config
file changes on disk right after the raw-content read. -/
def changedFs : Nat → Except String String :=
  fun n => if n = 0 then Except.ok "7" else Except.ok "999"

/-- An environment whose discovered root is an unnormalized spelling of
`/app`: its resolved config path coincides with the one from `cexEnv`. -/
def altRootEnv : Env := { cexEnv with findDirPath := "/x/../app" }

theorem splitSegs_ne_nil (cs : List Char) : splitSegs cs ≠ [] := by
  induction cs with
  | nil => simp [splitSegs]
  | cons c cs ih =>
    simp only [splitSegs]
    split
    · simp
    · match h : splitSegs cs with
      | [] => simp
      | s :: rest => simp

theorem mem_splitSegs_no_slash (cs : List Char) :
    ∀ s ∈ splitSegs cs, '/' ∉ s := by
  induction cs with
  | nil =>
    intro s hs
    simp [splitSegs] at hs
    simp [hs]
  | cons c cs ih =>
    intro s hs
    by_cases hc : c = '/'
    · subst hc
      rw [show splitSegs ('/' :: cs) = [] :: splitSegs cs from rfl] at hs
      rcases List.mem_cons.mp hs with h | h
      · simp [h]
      · exact ih s h
    · have hunf : splitSegs (c :: cs) =
          (match splitSegs cs with
            | t :: rest => (c :: t) :: rest
            | [] => [[c]]) := by
        simp [splitSegs, hc]
      rw [hunf] at hs
      match hsplit : splitSegs cs with
      | [] => exact absurd hsplit (splitSegs_ne_nil cs)
      | t :: rest =>
        rw [hsplit] at hs
        rcases List.mem_cons.mp hs with h | h
        · subst h
          intro hmem
          rcases List.mem_cons.mp hmem with h2 | h2
          · exact hc h2.symm
          · exact ih t (by rw [hsplit]; exact List.mem_cons_self t rest) h2
        · exact ih s (by rw [hsplit]; exact List.mem_cons_of_mem t h)

theorem splitSegs_no_slash (s : List Char) (h : '/' ∉ s) :
    splitSegs s = [s] := by
  induction s with
  | nil => simp [splitSegs]
  | cons c cs ih =>
    have hc : c ≠ '/' := by intro hc; exact h (by simp [hc])
    have hcs : '/' ∉ cs := by intro hm; exact h (by simp [hm])
    simp only [splitSegs, if_neg hc, ih hcs]

theorem splitSegs_append_slash (s r : List Char) (h : '/' ∉ s) :
    splitSegs (s ++ '/' :: r) = s :: splitSegs r := by
  induction s with
  | nil =>
    rw [show ([] : List Char) ++ '/' :: r = '/' :: r from rfl]
    rw [show splitSegs ('/' :: r) = [] :: splitSegs r from rfl]
  | cons c cs ih =>
    have hc : c ≠ '/' := by intro hc; exact h (by simp [hc])
    have hcs : '/' ∉ cs := by intro hm; exact h (by simp [hm])
    rw [show (c :: cs) ++ '/' :: r = c :: (cs ++ '/' :: r) from rfl]
    have hunf : splitSegs (c :: (cs ++ '/' :: r)) =
        (match splitSegs (cs ++ '/' :: r) with
          | t :: rest => (c :: t) :: rest
          | [] => [[c]]) := by
      simp [splitSegs, hc]
    rw [hunf, ih hcs]

theorem splitSegs_joinSegs (L : List (List Char)) (hne : L ≠ [])
    (hcl : ∀ s ∈ L, '/' ∉ s) : splitSegs (joinSegs L) = L := by
  induction L with
  | nil => exact absurd rfl hne
  | cons s rest ih =>
    match rest with
    | [] => exact splitSegs_no_slash s (hcl s (by simp))
    | t :: rest2 =>
      have h1 : joinSegs (s :: t :: rest2) = s ++ '/' :: joinSegs (t :: rest2) := rfl
      rw [h1, splitSegs_append_slash s _ (hcl s (by simp))]
      rw [ih (by simp) (fun u hu => hcl u (by simp [hu]))]

theorem foldl_normStep_clean (segs : List (List Char))
    (hsegs : ∀ s ∈ segs, '/' ∉ s) :
    ∀ acc, (∀ s ∈ acc, CleanSeg s) →
      ∀ t ∈ segs.foldl normStep acc, CleanSeg t := by
  induction segs with
  | nil => intro acc hacc t ht; exact hacc t ht
  | cons s rest ih =>
    intro acc hacc t ht
    rw [List.foldl_cons] at ht
    refine ih (fun u hu => hsegs u (List.mem_cons_of_mem s hu))
      (normStep acc s) ?_ t ht
    intro u hu
    by_cases h1 : s = [] ∨ s = ['.']
    · rw [show normStep acc s = acc from by simp only [normStep, if_pos h1]]
        at hu
      exact hacc u hu
    · by_cases h2 : s = ['.', '.']
      · rw [show normStep acc s = acc.tail from by
          simp only [normStep, if_neg h1, if_pos h2]] at hu
        exact hacc u (List.mem_of_mem_tail hu)
      · rw [show normStep acc s = s :: acc from by
          simp only [normStep, if_neg h1, if_neg h2]] at hu
        rcases List.mem_cons.mp hu with h | h
        · subst h
          push_neg at h1
          exact ⟨h1.1, h1.2, h2, hsegs _ (List.mem_cons_self _ _)⟩
        · exact hacc u h

theorem foldl_normStep_of_clean (L : List (List Char))
    (hcl : ∀ s ∈ L, CleanSeg s) :
    ∀ acc, L.foldl normStep acc = L.reverse ++ acc := by
  induction L with
  | nil => intro acc; simp
  | cons s rest ih =>
    intro acc
    have hs := hcl s (List.mem_cons_self _ _)
    have hno : ¬(s = [] ∨ s = ['.']) := fun hor => hor.elim hs.1 hs.2.1
    have h1 : normStep acc s = s :: acc := by
      simp only [normStep, if_neg hno, if_neg hs.2.2.1]
    rw [List.foldl_cons, h1, ih (fun u hu => hcl u (List.mem_cons_of_mem s hu))]
    simp

theorem normSegs_clean (segs : List (List Char))
    (hsegs : ∀ s ∈ segs, '/' ∉ s) :
    ∀ t ∈ normSegs segs, CleanSeg t := by
  intro t ht
  simp only [normSegs, List.mem_reverse] at ht
  exact foldl_normStep_clean segs hsegs [] (by simp) t ht

theorem normSegs_of_clean (L : List (List Char)) (hcl : ∀ s ∈ L, CleanSeg s) :
    normSegs L = L := by
  simp [normSegs, foldl_normStep_of_clean L hcl]

/-- The segments entering normalization in `resolveC` are separator-free. -/
theorem resolveC_segs_no_slash (base p : List Char) :
    ∀ s ∈ (if isAbsC p then splitSegs p else splitSegs base ++ splitSegs p),
      '/' ∉ s := by
  intro s hs
  split at hs
  · exact mem_splitSegs_no_slash p s hs
  · rcases List.mem_append.mp hs with h | h
    · exact mem_splitSegs_no_slash base s h
    · exact mem_splitSegs_no_slash p s h

/-- `resolveC` applied to an absolute path built from clean segments returns
it unchanged, whatever the base. -/
theorem resolveC_abs_clean (b : List Char) (L : List (List Char))
    (hclean : ∀ t ∈ L, CleanSeg t) :
    resolveC b ('/' :: joinSegs L) = '/' :: joinSegs L := by
  cases L with
  | nil => rfl
  | cons s rest =>
    have hns : ∀ u ∈ s :: rest, '/' ∉ u := fun u hu => (hclean u hu).2.2.2
    have h0 : resolveC b ('/' :: joinSegs (s :: rest)) =
        '/' :: joinSegs (normSegs (splitSegs ('/' :: joinSegs (s :: rest)))) :=
      rfl
    rw [h0]
    have h1 : splitSegs ('/' :: joinSegs (s :: rest)) =
        [] :: splitSegs (joinSegs (s :: rest)) := rfl
    rw [h1, splitSegs_joinSegs (s :: rest) (by simp) hns]
    have h2 : normSegs ([] :: s :: rest) = normSegs (s :: rest) := by
      simp [normSegs, List.foldl_cons, normStep]
    rw [h2, normSegs_of_clean (s :: rest) hclean]

/-- `path.resolve` applied to an already-resolved path returns it unchanged,
whatever the base: the output of `resolveC` is absolute and normalized. -/
theorem resolveC_resolveC (b b' p : List Char) :
    resolveC b (resolveC b' p) = resolveC b' p := by
  have hclean := normSegs_clean _ (resolveC_segs_no_slash b' p)
  exact resolveC_abs_clean b _ hclean

/-- `pathResolve` is absorbing on already-resolved paths. -/
theorem pathResolve_pathResolve (b b' : String) (p : String) :
    pathResolve b (pathResolve b' p) = pathResolve b' p := by
  unfold pathResolve
  rw [show (String.mk (resolveC b'.data p.data)).data = resolveC b'.data p.data
    from rfl]
  rw [resolveC_resolveC]

/-! ### Characterizing equations for the methods -/

theorem getAppRootFolderPath_eq (env : Env) (st : St) :
    getAppRootFolderPath env st = (rootOf env st, postRoot env st) := by
  obtain ⟨a, ca, re, fc, vc⟩ := st
  cases a <;> simp [getAppRootFolderPath, rootOf, postRoot]

theorem rootOf_postRoot (env : Env) (st : St) :
    rootOf env (postRoot env st) = rootOf env st := rfl

theorem postRoot_postRoot (env : Env) (st : St) :
    postRoot env (postRoot env st) = postRoot env st := by
  simp [postRoot, rootOf]

theorem postRoot_bumpRead (env : Env) (st : St) :
    postRoot env (bumpRead (postRoot env st)) = bumpRead (postRoot env st) := by
  simp [postRoot, bumpRead, rootOf]

theorem resolvePathToConfig_eq (env : Env) (cfg : TSConfig) (st : St) :
    resolvePathToConfig env cfg st =
      (resolvedPathOf env cfg st, postRoot env st) := by
  simp [resolvePathToConfig, getAppRootFolderPath_eq, resolvedPathOf]

theorem resolvedPathOf_postRoot (env : Env) (cfg : TSConfig) (st : St) :
    resolvedPathOf env cfg (postRoot env st) = resolvedPathOf env cfg st := rfl

theorem getCacheParams_eq (env : Env) (cfg : TSConfig) (c : String) (st : St) :
    getCacheParams env cfg c st = (cacheKeyOf env cfg st c, postRoot env st) := by
  simp only [getCacheParams, getAppRootFolderPath_eq, resolvePathToConfig_eq]
  rw [postRoot_postRoot]
  rfl

/-- The `filePath` component of the cache key is the resolved config path
itself: resolving an already-resolved path is the identity. -/
theorem cacheKeyOf_filePath (env : Env) (cfg : TSConfig) (st : St)
    (c : String) :
    (cacheKeyOf env cfg st c).filePath = resolvedPathOf env cfg st :=
  pathResolve_pathResolve (rootOf env st) (rootOf env st) cfg.configPath

theorem getConfigRawContent_ok (env : Env) (cfg : TSConfig) (st : St)
    (c : String) (hfs : env.fs st.reads = Except.ok c)
    (hj : (jsonParse c).isSome) :
    getConfigRawContent env cfg st =
      (Except.ok c, bumpRead (postRoot env st)) := by
  match hjp : jsonParse c with
  | some j =>
      simp [getConfigRawContent, resolvePathToConfig_eq, postRoot, bumpRead,
        hfs, hjp]
  | none => rw [hjp] at hj; exact absurd hj (by simp)

theorem getConfigRawContent_invalidJson (env : Env) (cfg : TSConfig) (st : St)
    (c : String) (hfs : env.fs st.reads = Except.ok c)
    (hj : jsonParse c = none) :
    getConfigRawContent env cfg st =
      (Except.error (TSError.invalidJson (resolvedPathOf env cfg st)),
        bumpRead (postRoot env st)) := by
  simp [getConfigRawContent, resolvePathToConfig_eq, postRoot, bumpRead,
    hfs, hj]

theorem getConfigRawContent_enoent (env : Env) (cfg : TSConfig) (st : St)
    (hfs : env.fs st.reads = Except.error NO_FILE_OR_DIRECTORY) :
    getConfigRawContent env cfg st =
      (Except.error (TSError.invalidPath (resolvedPathOf env cfg st)),
        bumpRead (postRoot env st)) := by
  simp [getConfigRawContent, resolvePathToConfig_eq, postRoot, bumpRead, hfs]

theorem getConfigRawContent_fsError (env : Env) (cfg : TSConfig) (st : St)
    (code : String) (hfs : env.fs st.reads = Except.error code)
    (hne : code ≠ NO_FILE_OR_DIRECTORY) :
    getConfigRawContent env cfg st =
      (Except.error (TSError.fsError code), bumpRead (postRoot env st)) := by
  simp [getConfigRawContent, resolvePathToConfig_eq, postRoot, bumpRead,
    hfs, hne]

theorem parseTSConfig_rejected (env : Env) (cfg : TSConfig) (c : String)
    (st : St) (j : Json) (hj : jsonParse c = some j)
    (he : (env.parseJsonConfigFileContent j
      (resolvedPathOf env cfg st)).errors ≠ []) :
    parseTSConfig env cfg c st =
      (Except.error (TSError.tsParse
          (formatDiagnostics (env.parseJsonConfigFileContent j
            (resolvedPathOf env cfg st)).errors)
          (resolvedPathOf env cfg st)
          (env.parseJsonConfigFileContent j
            (resolvedPathOf env cfg st)).errors),
        bumpVal (postRoot env st)) := by
  have hlen : (env.parseJsonConfigFileContent j
      (resolvedPathOf env cfg st)).errors.length ≠ 0 := by
    simpa using he
  simp [parseTSConfig, resolvePathToConfig_eq, bumpVal, hj, hlen]

theorem parseTSConfig_accepted (env : Env) (cfg : TSConfig) (c : String)
    (st : St) (j : Json) (hj : jsonParse c = some j)
    (he : (env.parseJsonConfigFileContent j
      (resolvedPathOf env cfg st)).errors = []) :
    parseTSConfig env cfg c st =
      (Except.ok (jsonStringify (env.parseJsonConfigFileContent j
          (resolvedPathOf env cfg st)).options),
        bumpVal (postRoot env st)) := by
  simp [parseTSConfig, resolvePathToConfig_eq, bumpVal, hj, he]

theorem string_data_append (s t : String) :
    (s ++ t).data = s.data ++ t.data := by
  cases s; cases t; rfl

theorem natDigitsAux_ne_nil (fuel n : Nat) (hf : fuel ≠ 0) (hn : n ≠ 0) :
    natDigitsAux fuel n ≠ [] := by
  match fuel with
  | 0 => exact absurd rfl hf
  | f + 1 => simp [natDigitsAux, hn]

theorem natRepr_ne_nil (n : Nat) : natRepr n ≠ [] := by
  by_cases h : n = 0
  · simp [natRepr, h]
  · simp only [natRepr, if_neg h]
    exact natDigitsAux_ne_nil n n h h

theorem intRepr_ne_nil (n : Int) : intRepr n ≠ [] := by
  cases n with
  | ofNat m => exact natRepr_ne_nil m
  | negSucc m => simp [intRepr]

/-- `JSON.stringify` never yields the empty string, so a cached serialized
config is always JS-truthy. -/
theorem jsonStringify_ne_empty (j : Json) : jsonStringify j ≠ "" := by
  have hdata : ∀ s : String, s.data ≠ [] → s ≠ "" := by
    intro s h he
    subst he
    exact h rfl
  cases j with
  | null => decide
  | bool b => cases b <;> decide
  | num n =>
      apply hdata
      rw [show (jsonStringify (Json.num n)).data = intRepr n from rfl]
      exact intRepr_ne_nil n
  | str s =>
      apply hdata
      rw [show jsonStringify (Json.str s) = "\"" ++ s ++ "\"" from rfl]
      rw [string_data_append, string_data_append]
      simp
  | arr elems =>
      apply hdata
      rw [show jsonStringify (Json.arr elems) =
        "[" ++ stringifyElems elems ++ "]" from rfl]
      rw [string_data_append, string_data_append]
      simp
  | obj fields =>
      apply hdata
      rw [show jsonStringify (Json.obj fields) =
        String.mk [lbrace] ++ stringifyFields fields ++ String.mk [rbrace]
        from rfl]
      rw [string_data_append, string_data_append]
      simp

theorem parseMiss_rejected (env : Env) (cfg : TSConfig) (c : String)
    (st : St) (j : Json) (hj : jsonParse c = some j)
    (he : (env.parseJsonConfigFileContent j
      (resolvedPathOf env cfg st)).errors ≠ []) :
    parseMiss env cfg c st =
      (Except.error (TSError.tsParse
          (formatDiagnostics (env.parseJsonConfigFileContent j
            (resolvedPathOf env cfg st)).errors)
          (resolvedPathOf env cfg st)
          (env.parseJsonConfigFileContent j
            (resolvedPathOf env cfg st)).errors),
        bumpVal (postRoot env st)) := by
  rw [parseMiss, parseTSConfig_rejected env cfg c st j hj he]

theorem parseMiss_accepted (env : Env) (cfg : TSConfig) (c : String)
    (st : St) (j : Json) (hj : jsonParse c = some j)
    (he : (env.parseJsonConfigFileContent j
      (resolvedPathOf env cfg st)).errors = []) :
    parseMiss env cfg c st =
      (match jsonParse (jsonStringify (env.parseJsonConfigFileContent j
          (resolvedPathOf env cfg st)).options) with
        | some jv => Except.ok jv
        | none => Except.error (TSError.jsError "SyntaxError"),
        stAfterWrite env cfg st c
          (jsonStringify (env.parseJsonConfigFileContent j
            (resolvedPathOf env cfg st)).options)) := by
  rw [parseMiss, parseTSConfig_accepted env cfg c st j hj he]
  dsimp only
  rw [show getCacheParams env cfg c (bumpVal (postRoot env st)) =
      (cacheKeyOf env cfg st c, bumpVal (postRoot env st)) from by
    rw [getCacheParams_eq]; rfl]
  cases jsonParse (jsonStringify (env.parseJsonConfigFileContent j
    (resolvedPathOf env cfg st)).options) <;> rfl

theorem resolvedPathOf_bumpRead_postRoot (env : Env) (cfg : TSConfig)
    (st : St) :
    resolvedPathOf env cfg (bumpRead (postRoot env st)) =
      resolvedPathOf env cfg st := rfl

theorem cacheKeyOf_bumpRead_postRoot (env : Env) (cfg : TSConfig) (st : St)
    (c : String) :
    cacheKeyOf env cfg (bumpRead (postRoot env st)) c =
      cacheKeyOf env cfg st c := rfl

theorem parse_readError (env : Env) (cfg : TSConfig) (st st' : St)
    (e : TSError) (hrc : getConfigRawContent env cfg st = (Except.error e, st')) :
    parse env cfg st = (Except.error e, st') := by
  unfold parse
  rw [hrc]

theorem parse_afterRead (env : Env) (cfg : TSConfig) (st : St) (c : String)
    (hfs : env.fs st.reads = Except.ok c) (hj : (jsonParse c).isSome) :
    parse env cfg st =
      (match cacheGet st.cache (cacheKeyOf env cfg st c) with
        | some v =>
            if v = "" then parseMiss env cfg c (bumpRead (postRoot env st))
            else (Except.ok (Json.str v), bumpRead (postRoot env st))
        | none => parseMiss env cfg c (bumpRead (postRoot env st))) := by
  unfold parse
  rw [getConfigRawContent_ok env cfg st c hfs hj]
  dsimp only
  rw [show getCacheParams env cfg c (bumpRead (postRoot env st)) =
      (cacheKeyOf env cfg st c, bumpRead (postRoot env st)) from by
    rw [getCacheParams_eq]; rfl]
  rfl

theorem parse_hit (env : Env) (cfg : TSConfig) (st : St) (c v : String)
    (hfs : env.fs st.reads = Except.ok c) (hj : (jsonParse c).isSome)
    (hget : cacheGet st.cache (cacheKeyOf env cfg st c) = some v)
    (hv : v ≠ "") :
    parse env cfg st = (Except.ok (Json.str v), bumpRead (postRoot env st)) := by
  rw [parse_afterRead env cfg st c hfs hj, hget]
  simp [hv]

theorem parse_missNone (env : Env) (cfg : TSConfig) (st : St) (c : String)
    (hfs : env.fs st.reads = Except.ok c) (hj : (jsonParse c).isSome)
    (hget : cacheGet st.cache (cacheKeyOf env cfg st c) = none) :
    parse env cfg st = parseMiss env cfg c (bumpRead (postRoot env st)) := by
  rw [parse_afterRead env cfg st c hfs hj, hget]

theorem parse_missEmpty (env : Env) (cfg : TSConfig) (st : St) (c : String)
    (hfs : env.fs st.reads = Except.ok c) (hj : (jsonParse c).isSome)
    (hget : cacheGet st.cache (cacheKeyOf env cfg st c) = some "") :
    parse env cfg st = parseMiss env cfg c (bumpRead (postRoot env st)) := by
  rw [parse_afterRead env cfg st c hfs hj, hget]
  simp

/-- The cache store returns the value just written under the same key. -/
theorem cacheGet_cacheSet_self (cache : List (CacheParams × String))
    (key : CacheParams) (v : String) :
    cacheGet (cacheSet cache key v) key = some v := by
  simp [cacheGet, cacheSet, List.find?]

/-- Case analysis of the miss tail: either the validator rejects (error with
the formatted diagnostics, no cache write) or it accepts (serialized result
written and returned). -/
theorem parseMiss_cases (env : Env) (cfg : TSConfig) (c : String) (st : St)
    (j : Json) (hjp : jsonParse c = some j) :
    ((env.parseJsonConfigFileContent j (resolvedPathOf env cfg st)).errors ≠ [] ∧
      parseMiss env cfg c st =
        (Except.error (TSError.tsParse
            (formatDiagnostics (env.parseJsonConfigFileContent j
              (resolvedPathOf env cfg st)).errors)
            (resolvedPathOf env cfg st)
            (env.parseJsonConfigFileContent j
              (resolvedPathOf env cfg st)).errors),
          bumpVal (postRoot env st))) ∨
    ((env.parseJsonConfigFileContent j (resolvedPathOf env cfg st)).errors = [] ∧
      parseMiss env cfg c st =
        (match jsonParse (jsonStringify (env.parseJsonConfigFileContent j
            (resolvedPathOf env cfg st)).options) with
          | some jv => Except.ok jv
          | none => Except.error (TSError.jsError "SyntaxError"),
          stAfterWrite env cfg st c
            (jsonStringify (env.parseJsonConfigFileContent j
              (resolvedPathOf env cfg st)).options))) := by
  by_cases he : (env.parseJsonConfigFileContent j
      (resolvedPathOf env cfg st)).errors = []
  · exact Or.inr ⟨he, parseMiss_accepted env cfg c st j hjp he⟩
  · exact Or.inl ⟨he, parseMiss_rejected env cfg c st j hjp he⟩

/-- Exhaustive case analysis of one `parse()` call: a read-layer error, a
cache hit, a rejected validation, or an accepted validation with a cache
write. -/
theorem parse_total (env : Env) (cfg : TSConfig) (st : St) :
    (∃ e, parse env cfg st = (Except.error e, bumpRead (postRoot env st))) ∨
    (∃ c v, env.fs st.reads = Except.ok c ∧ (jsonParse c).isSome ∧
      cacheGet st.cache (cacheKeyOf env cfg st c) = some v ∧ v ≠ "" ∧
      parse env cfg st =
        (Except.ok (Json.str v), bumpRead (postRoot env st))) ∨
    (∃ c j, env.fs st.reads = Except.ok c ∧ jsonParse c = some j ∧
      (cacheGet st.cache (cacheKeyOf env cfg st c) = none ∨
        cacheGet st.cache (cacheKeyOf env cfg st c) = some "") ∧
      (env.parseJsonConfigFileContent j (resolvedPathOf env cfg st)).errors ≠ [] ∧
      parse env cfg st =
        (Except.error (TSError.tsParse
            (formatDiagnostics (env.parseJsonConfigFileContent j
              (resolvedPathOf env cfg st)).errors)
            (resolvedPathOf env cfg st)
            (env.parseJsonConfigFileContent j
              (resolvedPathOf env cfg st)).errors),
          bumpVal (bumpRead (postRoot env st)))) ∨
    (∃ c j, env.fs st.reads = Except.ok c ∧ jsonParse c = some j ∧
      (cacheGet st.cache (cacheKeyOf env cfg st c) = none ∨
        cacheGet st.cache (cacheKeyOf env cfg st c) = some "") ∧
      (env.parseJsonConfigFileContent j (resolvedPathOf env cfg st)).errors = [] ∧
      parse env cfg st =
        (match jsonParse (jsonStringify (env.parseJsonConfigFileContent j
            (resolvedPathOf env cfg st)).options) with
          | some jv => Except.ok jv
          | none => Except.error (TSError.jsError "SyntaxError"),
          stAfterWrite env cfg (bumpRead (postRoot env st)) c
            (jsonStringify (env.parseJsonConfigFileContent j
              (resolvedPathOf env cfg st)).options))) := by
  match hfs : env.fs st.reads with
  | Except.error code =>
    left
    by_cases hc : code = NO_FILE_OR_DIRECTORY
    · subst hc
      exact ⟨_, parse_readError env cfg st _ _
        (getConfigRawContent_enoent env cfg st hfs)⟩
    · exact ⟨_, parse_readError env cfg st _ _
        (getConfigRawContent_fsError env cfg st code hfs hc)⟩
  | Except.ok c =>
    match hjp : jsonParse c with
    | none =>
      left
      exact ⟨_, parse_readError env cfg st _ _
        (getConfigRawContent_invalidJson env cfg st c hfs hjp)⟩
    | some j =>
      have hjs : (jsonParse c).isSome := by rw [hjp]; rfl
      match hget : cacheGet st.cache (cacheKeyOf env cfg st c) with
      | some v =>
        by_cases hv : v = ""
        · subst hv
          have hp := parse_missEmpty env cfg st c hfs hjs hget
          rcases parseMiss_cases env cfg c (bumpRead (postRoot env st)) j hjp
            with ⟨he, hm⟩ | ⟨he, hm⟩
          · exact Or.inr (Or.inr (Or.inl
              ⟨c, j, rfl, hjp, Or.inr hget, he, hp.trans (hm.trans rfl)⟩))
          · exact Or.inr (Or.inr (Or.inr
              ⟨c, j, rfl, hjp, Or.inr hget, he, hp.trans (hm.trans rfl)⟩))
        · exact Or.inr (Or.inl ⟨c, v, rfl, hjs, hget, hv,
            parse_hit env cfg st c v hfs hjs hget hv⟩)
      | none =>
        have hp := parse_missNone env cfg st c hfs hjs hget
        rcases parseMiss_cases env cfg c (bumpRead (postRoot env st)) j hjp
          with ⟨he, hm⟩ | ⟨he, hm⟩
        · exact Or.inr (Or.inr (Or.inl
            ⟨c, j, rfl, hjp, Or.inl hget, he, hp.trans (hm.trans rfl)⟩))
        · exact Or.inr (Or.inr (Or.inr
            ⟨c, j, rfl, hjp, Or.inl hget, he, hp.trans (hm.trans rfl)⟩))

/-- Every `parse()` call leaves the root memo filled and bumps the
`findPathToFile` counter exactly when the memo was empty at entry. -/
theorem parse_st_root (env : Env) (cfg : TSConfig) (st : St) :
    (parse env cfg st).2.appRootPath = some (rootOf env st) ∧
    (parse env cfg st).2.findCalls =
      st.findCalls + (if st.appRootPath.isSome then 0 else 1) := by
  rcases parse_total env cfg st with ⟨e, hp⟩ | ⟨c, v, _, _, _, _, hp⟩ |
    ⟨c, j, _, _, _, _, hp⟩ | ⟨c, j, _, _, _, _, hp⟩ <;> rw [hp] <;>
    exact ⟨rfl, rfl⟩

/-- `parse()` consults the file system only at the single read of this call:
any file system agreeing at that index yields the identical call outcome. -/
theorem parse_fs_agree (env : Env) (fs' : Nat → Except String String)
    (cfg : TSConfig) (st : St) (h : fs' st.reads = env.fs st.reads) :
    parse { env with fs := fs' } cfg st = parse env cfg st := by
  have h' : ({ env with fs := fs' } : Env).fs st.reads = env.fs st.reads := h
  match hfs : env.fs st.reads with
  | Except.error code =>
    have hfs' : ({ env with fs := fs' } : Env).fs st.reads =
        Except.error code := h'.trans hfs
    by_cases hc : code = NO_FILE_OR_DIRECTORY
    · subst hc
      rw [parse_readError _ cfg st _ _
          (getConfigRawContent_enoent _ cfg st hfs'),
        parse_readError env cfg st _ _
          (getConfigRawContent_enoent env cfg st hfs)]
      rfl
    · rw [parse_readError _ cfg st _ _
          (getConfigRawContent_fsError _ cfg st code hfs' hc),
        parse_readError env cfg st _ _
          (getConfigRawContent_fsError env cfg st code hfs hc)]
      rfl
  | Except.ok c =>
    have hfs' : ({ env with fs := fs' } : Env).fs st.reads = Except.ok c :=
      h'.trans hfs
    match hjp : jsonParse c with
    | none =>
      rw [parse_readError _ cfg st _ _
          (getConfigRawContent_invalidJson _ cfg st c hfs' hjp),
        parse_readError env cfg st _ _
          (getConfigRawContent_invalidJson env cfg st c hfs hjp)]
      rfl
    | some j =>
      have hjs : (jsonParse c).isSome := by rw [hjp]; rfl
      match hget : cacheGet st.cache (cacheKeyOf env cfg st c) with
      | some v =>
        by_cases hv : v = ""
        · subst hv
          rw [parse_missEmpty _ cfg st c hfs' hjs hget,
            parse_missEmpty env cfg st c hfs hjs hget]
          rfl
        · rw [parse_hit _ cfg st c v hfs' hjs hget hv,
            parse_hit env cfg st c v hfs hjs hget hv]
          rfl
      | none =>
        rw [parse_missNone _ cfg st c hfs' hjs hget,
          parse_missNone env cfg st c hfs hjs hget]
        rfl

/-- The `findPathToFile` counter never exceeds one over a whole lifetime
started with an empty memo. -/
theorem runParses_findCalls (cfg : TSConfig) :
    ∀ (envs : List Env) (st : St), st.findCalls ≤ 1 →
      (st.appRootPath = none → st.findCalls = 0) →
      (runParses cfg envs st).findCalls ≤ 1 := by
  intro envs
  induction envs with
  | nil => intro st h1 _; exact h1
  | cons env rest ih =>
    intro st h1 h2
    have hstep : runParses cfg (env :: rest) st =
        runParses cfg rest (parse env cfg st).2 := rfl
    rw [hstep]
    have hroot := parse_st_root env cfg st
    apply ih
    · rw [hroot.2]
      cases hap : st.appRootPath with
      | some r => simpa using h1
      | none => rw [h2 hap]; simp
    · intro hnone
      rw [hroot.1] at hnone
      exact absurd hnone (by simp)

/-- The cache key, explicitly: the resolved config path (resolving an
already-absolute path is the identity), the raw content, and `.json`. -/
theorem cacheKeyOf_eq (env : Env) (cfg : TSConfig) (st : St) (c : String) :
    cacheKeyOf env cfg st c =
      { filePath := resolvedPathOf env cfg st, fileContent := c,
        fileExtension := ".json" } := by
  unfold cacheKeyOf resolvedPathOf
  rw [pathResolve_pathResolve]

/-- Normalization drops a `.` segment and keeps a clean final segment. -/
theorem normSegs_append_dot_seg (A : List (List Char)) (T : List Char)
    (hT : CleanSeg T) :
    normSegs (A ++ [['.'], T]) = normSegs A ++ [T] := by
  unfold normSegs
  rw [List.foldl_append]
  have hdot : normStep (List.foldl normStep [] A) ['.'] =
      List.foldl normStep [] A := by
    simp [normStep]
  have hno : ¬(T = [] ∨ T = ['.']) := fun hor => hor.elim hT.1 hT.2.1
  have hpush : List.foldl normStep (List.foldl normStep [] A) [['.'], T] =
      T :: List.foldl normStep [] A := by
    rw [List.foldl_cons, hdot, List.foldl_cons, List.foldl_nil]
    simp only [normStep, if_neg hno, if_neg hT.2.2.1]
  rw [hpush]
  simp

/-- Resolving `./name` against any base appends `name` to the base's
normalized segments. -/
theorem pathResolve_dot_child (base name : String)
    (hname : CleanSeg name.data) :
    pathResolve base ("./" ++ name) =
      String.mk ('/' :: joinSegs (normSegs (splitSegs base.data) ++
        [name.data])) := by
  unfold pathResolve
  have hdata : ("./" ++ name).data = '.' :: '/' :: name.data := by
    rw [string_data_append]
    rfl
  rw [hdata]
  have habs : resolveC base.data ('.' :: '/' :: name.data) =
      '/' :: joinSegs (normSegs (splitSegs base.data ++
        splitSegs ('.' :: '/' :: name.data))) := rfl
  rw [habs]
  have hsplit : splitSegs ('.' :: '/' :: name.data) =
      ['.'] :: splitSegs name.data := rfl
  rw [hsplit, splitSegs_no_slash name.data hname.2.2.2,
    normSegs_append_dot_seg _ _ hname]

/-- C9: omitting `configPath` at construction makes the orchestrator use
`./tsconfig.json`, and the config path resolves to the entry `tsconfig.json`
directly under the discovered project root's normalized segments. -/
theorem c9_default_config_path (env : Env) (cf : String) (st : St) :
    (TSConfig.create { configPath := none, cacheFolderPath := cf }).configPath =
      "./tsconfig.json" ∧
    (resolvePathToConfig env
        (TSConfig.create { configPath := none, cacheFolderPath := cf }) st).1 =
      String.mk ('/' :: joinSegs (normSegs (splitSegs (rootOf env st).data) ++
        ["tsconfig.json".data])) := by
  constructor
  · rfl
  · rw [resolvePathToConfig_eq]
    show pathResolve (rootOf env st) "./tsconfig.json" = _
    rw [show ("./tsconfig.json" : String) = "./" ++ "tsconfig.json" from rfl]
    exact pathResolve_dot_child (rootOf env st) "tsconfig.json"
      ⟨by decide, by decide, by decide, by decide⟩

/-- C4: the cache key is a deterministic, aliasing-free function of the
resolved config path and the raw content — equal resolved paths and equal
raw contents give the same key, a difference in either gives different keys,
and the extension component is always `.json`. -/
theorem c4_cache_key_injective (env1 : Env) (cfg1 : TSConfig) (st1 : St)
    (c1 : String) (env2 : Env) (cfg2 : TSConfig) (st2 : St) (c2 : String) :
    ((resolvePathToConfig env1 cfg1 st1).1 = (resolvePathToConfig env2 cfg2 st2).1 ∧
        c1 = c2 →
      (getCacheParams env1 cfg1 c1 st1).1 = (getCacheParams env2 cfg2 c2 st2).1) ∧
    ((resolvePathToConfig env1 cfg1 st1).1 ≠ (resolvePathToConfig env2 cfg2 st2).1 ∨
        c1 ≠ c2 →
      (getCacheParams env1 cfg1 c1 st1).1 ≠ (getCacheParams env2 cfg2 c2 st2).1) ∧
    (getCacheParams env1 cfg1 c1 st1).1.fileExtension = ".json" := by
  have hr1 : (resolvePathToConfig env1 cfg1 st1).1 = resolvedPathOf env1 cfg1 st1 := by
    rw [resolvePathToConfig_eq]
  have hr2 : (resolvePathToConfig env2 cfg2 st2).1 = resolvedPathOf env2 cfg2 st2 := by
    rw [resolvePathToConfig_eq]
  have hk1 : (getCacheParams env1 cfg1 c1 st1).1 =
      { filePath := resolvedPathOf env1 cfg1 st1, fileContent := c1,
        fileExtension := ".json" } := by
    rw [getCacheParams_eq]
    exact cacheKeyOf_eq env1 cfg1 st1 c1
  have hk2 : (getCacheParams env2 cfg2 c2 st2).1 =
      { filePath := resolvedPathOf env2 cfg2 st2, fileContent := c2,
        fileExtension := ".json" } := by
    rw [getCacheParams_eq]
    exact cacheKeyOf_eq env2 cfg2 st2 c2
  refine ⟨?_, ?_, ?_⟩
  · rintro ⟨hrp, hc⟩
    rw [hr1, hr2] at hrp
    rw [hk1, hk2, hrp, hc]
  · intro hor hkeq
    rw [hk1, hk2] at hkeq
    simp only [CacheParams.mk.injEq] at hkeq
    rcases hor with hne | hne
    · rw [hr1, hr2] at hne
      exact hne hkeq.1
    · exact hne hkeq.2.1
  · rw [hk1]

/-- C6: a read failing with `NO_FILE_OR_DIRECTORY` makes `parse()` fail with
the config-not-found error whose message contains the exact resolved
absolute path, and this is the only read-failure code the reader layer
reinterprets — any other code propagates unchanged. -/
theorem c6_missing_config (env : Env) (cfg : TSConfig) (st : St) :
    (env.fs st.reads = Except.error NO_FILE_OR_DIRECTORY →
      (parse env cfg st).1 =
        Except.error (TSError.invalidPath (resolvedPathOf env cfg st)) ∧
      ∃ l r, (errMessage (TSError.invalidPath
          (resolvedPathOf env cfg st))).data =
        l ++ (resolvedPathOf env cfg st).data ++ r) ∧
    (∀ code, code ≠ NO_FILE_OR_DIRECTORY →
      env.fs st.reads = Except.error code →
      (parse env cfg st).1 = Except.error (TSError.fsError code)) := by
  constructor
  · intro hfs
    constructor
    · rw [parse_readError env cfg st _ _
        (getConfigRawContent_enoent env cfg st hfs)]
    · refine ⟨("There is no typescript config by this path: " : String).data,
        [], ?_⟩
      rw [show errMessage (TSError.invalidPath (resolvedPathOf env cfg st)) =
        "There is no typescript config by this path: " ++
          resolvedPathOf env cfg st from rfl]
      rw [string_data_append]
      simp
  · intro code hne hfs
    rw [parse_readError env cfg st _ _
      (getConfigRawContent_fsError env cfg st code hfs hne)]

/-- C7: a config file holding syntactically invalid JSON makes `parse()`
fail with the invalid-JSON error carrying the resolved path, before the
semantic validator is ever invoked. -/
theorem c7_invalid_json (env : Env) (cfg : TSConfig) (st : St) (c : String)
    (hfs : env.fs st.reads = Except.ok c) (hj : jsonParse c = none) :
    (parse env cfg st).1 =
      Except.error (TSError.invalidJson (resolvedPathOf env cfg st)) ∧
    (parse env cfg st).2.valCalls = st.valCalls := by
  rw [parse_readError env cfg st _ _
    (getConfigRawContent_invalidJson env cfg st c hfs hj)]
  exact ⟨rfl, rfl⟩

/-- C8: when the semantic validator reports a non-empty diagnostics list,
`parse()` fails with a `TSParseError` carrying both the single formatted
message built from all diagnostics and the raw diagnostics list itself. -/
theorem c8_validation_error (env : Env) (cfg : TSConfig) (st : St)
    (c : String) (j : Json)
    (hfs : env.fs st.reads = Except.ok c) (hjp : jsonParse c = some j)
    (hmiss : cacheGet st.cache (cacheKeyOf env cfg st c) = none ∨
      cacheGet st.cache (cacheKeyOf env cfg st c) = some "")
    (he : (env.parseJsonConfigFileContent j
      (resolvedPathOf env cfg st)).errors ≠ []) :
    (parse env cfg st).1 =
      Except.error (TSError.tsParse
        (formatDiagnostics (env.parseJsonConfigFileContent j
          (resolvedPathOf env cfg st)).errors)
        (resolvedPathOf env cfg st)
        (env.parseJsonConfigFileContent j
          (resolvedPathOf env cfg st)).errors) := by
  have hjs : (jsonParse c).isSome := by rw [hjp]; rfl
  have hm := parseMiss_rejected env cfg c (bumpRead (postRoot env st)) j hjp he
  rcases hmiss with hget | hget
  · rw [parse_missNone env cfg st c hfs hjs hget, hm]
    rfl
  · rw [parse_missEmpty env cfg st c hfs hjs hget, hm]
    rfl

/-- C1 (counterexample): with unchanged file content and resolved path, the
first `parse()` call returns the validated JSON value while the second call
returns the cached serialized string — the two results are not deep-equal. -/
theorem c1_counterexample :
    (parse cexEnv cexCfg cexSt0).1 = Except.ok (Json.num 5) ∧
    (parse cexEnv cexCfg (parse cexEnv cexCfg cexSt0).2).1 =
      Except.ok (Json.str "5") ∧
    (parse cexEnv cexCfg (parse cexEnv cexCfg cexSt0).2).1 ≠
      (parse cexEnv cexCfg cexSt0).1 := by
  refine ⟨rfl, rfl, ?_⟩
  intro h
  rw [show (parse cexEnv cexCfg (parse cexEnv cexCfg cexSt0).2).1 =
    Except.ok (Json.str "5") from rfl] at h
  rw [show (parse cexEnv cexCfg cexSt0).1 = Except.ok (Json.num 5)
    from rfl] at h
  simp at h

/-- C1 (amended): after a successful `parse()` call, a second call under
unchanged file content and resolved path takes the cache-hit path — it does
not invoke the semantic validator and does not write the cache — and returns
the cached value: the first call's result itself when the first call was a
hit, or the cached serialized form of the first call's result (its
`JSON.stringify`, which `JSON.parse`s back to it) when the first call
validated and wrote. -/
theorem c1_second_call_cached (env : Env) (cfg : TSConfig) (st : St)
    (j1 : Json) (st1 : St)
    (h1 : parse env cfg st = (Except.ok j1, st1))
    (hfs2 : env.fs st1.reads = env.fs st.reads) :
    (parse env cfg st1).2.valCalls = st1.valCalls ∧
    (parse env cfg st1).2.cache = st1.cache ∧
    ((parse env cfg st1).1 = Except.ok j1 ∨
      ∃ config, (parse env cfg st1).1 = Except.ok (Json.str config) ∧
        jsonParse config = some j1) := by
  rcases parse_total env cfg st with ⟨e, hp⟩ | ⟨c, v, hfs, hjs, hget, hv, hp⟩ |
    ⟨c, j, hfs, hjp, hmiss, he, hp⟩ | ⟨c, j, hfs, hjp, hmiss, he, hp⟩
  · rw [hp, Prod.mk.injEq] at h1
    exact absurd h1.1 (by simp)
  · rw [hp, Prod.mk.injEq] at h1
    obtain ⟨h1a, h1b⟩ := h1
    injection h1a with hj1
    subst h1b
    have hfs1 : env.fs (bumpRead (postRoot env st)).reads = Except.ok c :=
      hfs2.trans hfs
    have hget1 : cacheGet (bumpRead (postRoot env st)).cache
        (cacheKeyOf env cfg (bumpRead (postRoot env st)) c) = some v := hget
    rw [parse_hit env cfg (bumpRead (postRoot env st)) c v hfs1 hjs hget1 hv]
    exact ⟨rfl, rfl, Or.inl (by rw [hj1])⟩
  · rw [hp, Prod.mk.injEq] at h1
    exact absurd h1.1 (by simp)
  · rw [hp] at h1
    cases hrt : jsonParse (jsonStringify (env.parseJsonConfigFileContent j
        (resolvedPathOf env cfg st)).options) with
    | none =>
        rw [hrt, Prod.mk.injEq] at h1
        exact absurd h1.1 (by simp)
    | some jv =>
        rw [hrt, Prod.mk.injEq] at h1
        obtain ⟨h1a, h1b⟩ := h1
        injection h1a with hj1
        subst h1b
        have hfs1 : env.fs (stAfterWrite env cfg (bumpRead (postRoot env st))
            c (jsonStringify (env.parseJsonConfigFileContent j
              (resolvedPathOf env cfg st)).options)).reads = Except.ok c :=
          hfs2.trans hfs
        have hget1 : cacheGet (stAfterWrite env cfg
              (bumpRead (postRoot env st)) c
              (jsonStringify (env.parseJsonConfigFileContent j
                (resolvedPathOf env cfg st)).options)).cache
            (cacheKeyOf env cfg (stAfterWrite env cfg
              (bumpRead (postRoot env st)) c
              (jsonStringify (env.parseJsonConfigFileContent j
                (resolvedPathOf env cfg st)).options)) c) =
            some (jsonStringify (env.parseJsonConfigFileContent j
              (resolvedPathOf env cfg st)).options) :=
          cacheGet_cacheSet_self (bumpRead (postRoot env st)).cache
            (cacheKeyOf env cfg (bumpRead (postRoot env st)) c)
            (jsonStringify (env.parseJsonConfigFileContent j
              (resolvedPathOf env cfg st)).options)
        have hjs : (jsonParse c).isSome := by rw [hjp]; rfl
        rw [parse_hit env cfg _ c _ hfs1 hjs hget1
          (jsonStringify_ne_empty _)]
        refine ⟨rfl, rfl, Or.inr ⟨_, rfl, ?_⟩⟩
        rw [hrt, hj1]

/-- C2: the cache is only ever written with a validator-accepted serialized
result; when the validation step is reached and reports diagnostics,
`parse()` throws without touching the cache; and a successful `parse()`
either skipped validation (cache hit) or validated with no diagnostics. -/
theorem c2_no_invalid_cache (env : Env) (cfg : TSConfig) (st : St) :
    ((parse env cfg st).2.cache = st.cache ∨
      ∃ c j, env.fs st.reads = Except.ok c ∧ jsonParse c = some j ∧
        (env.parseJsonConfigFileContent j
          (resolvedPathOf env cfg st)).errors = [] ∧
        (parse env cfg st).2.cache =
          cacheSet st.cache (cacheKeyOf env cfg st c)
            (jsonStringify (env.parseJsonConfigFileContent j
              (resolvedPathOf env cfg st)).options)) ∧
    (∀ c j, env.fs st.reads = Except.ok c → jsonParse c = some j →
      (cacheGet st.cache (cacheKeyOf env cfg st c) = none ∨
        cacheGet st.cache (cacheKeyOf env cfg st c) = some "") →
      (env.parseJsonConfigFileContent j
        (resolvedPathOf env cfg st)).errors ≠ [] →
      (∃ e, (parse env cfg st).1 = Except.error e) ∧
      (parse env cfg st).2.cache = st.cache) ∧
    (∀ jv, (parse env cfg st).1 = Except.ok jv →
      (parse env cfg st).2.valCalls = st.valCalls ∨
      ∃ c j, env.fs st.reads = Except.ok c ∧ jsonParse c = some j ∧
        (env.parseJsonConfigFileContent j
          (resolvedPathOf env cfg st)).errors = []) := by
  refine ⟨?_, ?_, ?_⟩
  · rcases parse_total env cfg st with ⟨e, hp⟩ |
      ⟨c, v, hfs, hjs, hget, hv, hp⟩ | ⟨c, j, hfs, hjp, hmiss, he, hp⟩ |
      ⟨c, j, hfs, hjp, hmiss, he, hp⟩
    · rw [hp]; exact Or.inl rfl
    · rw [hp]; exact Or.inl rfl
    · rw [hp]; exact Or.inl rfl
    · rw [hp]
      exact Or.inr ⟨c, j, hfs, hjp, he, rfl⟩
  · intro c j hfs hjp hmiss he
    have hjs : (jsonParse c).isSome := by rw [hjp]; rfl
    have hm := parseMiss_rejected env cfg c (bumpRead (postRoot env st)) j
      hjp he
    rcases hmiss with hget | hget
    · rw [parse_missNone env cfg st c hfs hjs hget, hm]
      exact ⟨⟨_, rfl⟩, rfl⟩
    · rw [parse_missEmpty env cfg st c hfs hjs hget, hm]
      exact ⟨⟨_, rfl⟩, rfl⟩
  · intro jv hok
    rcases parse_total env cfg st with ⟨e, hp⟩ |
      ⟨c, v, hfs, hjs, hget, hv, hp⟩ | ⟨c, j, hfs, hjp, hmiss, he, hp⟩ |
      ⟨c, j, hfs, hjp, hmiss, he, hp⟩
    · rw [hp] at hok; exact absurd hok (by simp)
    · rw [hp]; exact Or.inl rfl
    · rw [hp] at hok; exact absurd hok (by simp)
    · exact Or.inr ⟨c, j, hfs, hjp, he⟩

/-- C3: one `parse()` call consults the disk exactly once — any file system
agreeing at that single read yields the identical outcome, so a change on
disk after the raw-content read of the call cannot affect it — and the cache
write (when it happens) uses the very key built from that read's content,
the same key used for the lookup. -/
theorem c3_write_key_from_read_content (env : Env) (cfg : TSConfig)
    (st : St) :
    (∀ fs', fs' st.reads = env.fs st.reads →
      parse { env with fs := fs' } cfg st = parse env cfg st) ∧
    (∀ c j, env.fs st.reads = Except.ok c → jsonParse c = some j →
      (cacheGet st.cache (cacheKeyOf env cfg st c) = none ∨
        cacheGet st.cache (cacheKeyOf env cfg st c) = some "") →
      (env.parseJsonConfigFileContent j
        (resolvedPathOf env cfg st)).errors = [] →
      (parse env cfg st).2.cache =
        cacheSet st.cache (cacheKeyOf env cfg st c)
          (jsonStringify (env.parseJsonConfigFileContent j
            (resolvedPathOf env cfg st)).options) ∧
      (cacheKeyOf env cfg st c).fileContent = c) := by
  constructor
  · exact fun fs' h => parse_fs_agree env fs' cfg st h
  · intro c j hfs hjp hmiss he
    have hjs : (jsonParse c).isSome := by rw [hjp]; rfl
    have hm := parseMiss_accepted env cfg c (bumpRead (postRoot env st)) j
      hjp he
    rcases hmiss with hget | hget
    · rw [parse_missNone env cfg st c hfs hjs hget, hm]
      exact ⟨rfl, rfl⟩
    · rw [parse_missEmpty env cfg st c hfs hjs hget, hm]
      exact ⟨rfl, rfl⟩

/-- C5: the project-root lookup is memoized — once the memo is filled, the
lookup returns the stored directory without any state change; a `parse()`
call on a filled memo never re-runs `findPathToFile` nor rewrites the memo;
and over any whole lifetime the upward search runs at most once. -/
theorem c5_root_memoized :
    (∀ (env : Env) (r : String) (st : St), st.appRootPath = some r →
      getAppRootFolderPath env st = (r, st)) ∧
    (∀ (env : Env) (cfg : TSConfig) (st : St) (r : String),
      st.appRootPath = some r →
      (parse env cfg st).2.appRootPath = some r ∧
      (parse env cfg st).2.findCalls = st.findCalls) ∧
    (∀ (cfg : TSConfig) (envs : List Env) (st : St),
      st.appRootPath = none → st.findCalls = 0 →
      (runParses cfg envs st).findCalls ≤ 1) := by
  refine ⟨?_, ?_, ?_⟩
  · intro env r st h
    simp [getAppRootFolderPath, h]
  · intro env cfg st r h
    have hroot := parse_st_root env cfg st
    have hr : rootOf env st = r := by unfold rootOf; rw [h]; rfl
    constructor
    · rw [hroot.1, hr]
    · rw [hroot.2, h]
      simp
  · intro cfg envs st h1 h2
    exact runParses_findCalls cfg envs st (by rw [h2]; decide) (fun _ => h2)

/-- C10: the cache-hit test is JS truthiness, not presence — a stored falsy
(empty-string) value under the computed key is treated as a miss: the
validator runs again and, on acceptance, the cache write happens, instead of
the stored value being returned. -/
theorem c10_falsy_cache_is_miss (env : Env) (cfg : TSConfig) (st : St)
    (c : String) (j : Json)
    (hfs : env.fs st.reads = Except.ok c) (hjp : jsonParse c = some j)
    (hget : cacheGet st.cache (cacheKeyOf env cfg st c) = some "") :
    parse env cfg st = parseMiss env cfg c (bumpRead (postRoot env st)) ∧
    (parse env cfg st).2.valCalls = st.valCalls + 1 ∧
    ((env.parseJsonConfigFileContent j
        (resolvedPathOf env cfg st)).errors = [] →
      (parse env cfg st).2.cache =
        cacheSet st.cache (cacheKeyOf env cfg st c)
          (jsonStringify (env.parseJsonConfigFileContent j
            (resolvedPathOf env cfg st)).options)) := by
  have hjs : (jsonParse c).isSome := by rw [hjp]; rfl
  have hp := parse_missEmpty env cfg st c hfs hjs hget
  refine ⟨hp, ?_, ?_⟩
  · rcases parseMiss_cases env cfg c (bumpRead (postRoot env st)) j hjp with
      ⟨he, hm⟩ | ⟨he, hm⟩
    · rw [hp, hm]
      rfl
    · rw [hp, hm]
      rfl
  · intro he
    have hm := parseMiss_accepted env cfg c (bumpRead (postRoot env st)) j
      hjp he
    rw [hp, hm]
    rfl

/-- Witness for C1 (amended) at the concrete healthy scenario. -/
theorem c1_second_call_cached_witness :
    (parse cexEnv cexCfg (parse cexEnv cexCfg cexSt0).2).2.valCalls =
      (parse cexEnv cexCfg cexSt0).2.valCalls ∧
    (parse cexEnv cexCfg (parse cexEnv cexCfg cexSt0).2).2.cache =
      (parse cexEnv cexCfg cexSt0).2.cache ∧
    ((parse cexEnv cexCfg (parse cexEnv cexCfg cexSt0).2).1 =
        Except.ok (Json.num 5) ∨
      ∃ config, (parse cexEnv cexCfg (parse cexEnv cexCfg cexSt0).2).1 =
        Except.ok (Json.str config) ∧ jsonParse config = some (Json.num 5)) :=
  c1_second_call_cached cexEnv cexCfg cexSt0 (Json.num 5)
    (parse cexEnv cexCfg cexSt0).2 rfl rfl

/-- Witness for C2 at the concrete rejecting validator. -/
theorem c2_no_invalid_cache_witness :
    (∃ e, (parse rejEnv cexCfg cexSt0).1 = Except.error e) ∧
    (parse rejEnv cexCfg cexSt0).2.cache = cexSt0.cache :=
  (c2_no_invalid_cache rejEnv cexCfg cexSt0).2.1 "7" (Json.num 7) rfl rfl
    (Or.inl rfl) (by decide)

/-- Witness for C3: a disk change after the first read leaves the call
outcome untouched, and the key's content component is the read content. -/
theorem c3_write_key_from_read_content_witness :
    parse { cexEnv with fs := changedFs } cexCfg cexSt0 =
      parse cexEnv cexCfg cexSt0 ∧
    (cacheKeyOf cexEnv cexCfg cexSt0 "7").fileContent = "7" :=
  ⟨(c3_write_key_from_read_content cexEnv cexCfg cexSt0).1 changedFs rfl,
    ((c3_write_key_from_read_content cexEnv cexCfg cexSt0).2 "7"
      (Json.num 7) rfl rfl (Or.inl rfl) rfl).2⟩

/-- Witness for C4: two unnormalized spellings of the same root give the
same key, a content change gives a different key. -/
theorem c4_cache_key_injective_witness :
    (getCacheParams cexEnv cexCfg "7" cexSt0).1 =
      (getCacheParams altRootEnv cexCfg "7" cexSt0).1 ∧
    (getCacheParams cexEnv cexCfg "7" cexSt0).1 ≠
      (getCacheParams cexEnv cexCfg "8" cexSt0).1 :=
  ⟨(c4_cache_key_injective cexEnv cexCfg cexSt0 "7" altRootEnv cexCfg cexSt0
      "7").1 ⟨by decide, rfl⟩,
    (c4_cache_key_injective cexEnv cexCfg cexSt0 "7" cexEnv cexCfg cexSt0
      "8").2.1 (Or.inr (by decide))⟩

/-- Witness for C5 at concrete states. -/
theorem c5_root_memoized_witness :
    getAppRootFolderPath cexEnv someRootSt = ("/app", someRootSt) ∧
    (parse cexEnv cexCfg someRootSt).2.findCalls = someRootSt.findCalls ∧
    (runParses cexCfg [cexEnv, cexEnv, cexEnv] cexSt0).findCalls ≤ 1 :=
  ⟨c5_root_memoized.1 cexEnv "/app" someRootSt rfl,
    (c5_root_memoized.2.1 cexEnv cexCfg someRootSt "/app" rfl).2,
    c5_root_memoized.2.2 cexCfg [cexEnv, cexEnv, cexEnv] cexSt0 rfl rfl⟩

/-- Witness for C6: a missing config yields the config-not-found error, any
other read failure propagates its code unchanged. -/
theorem c6_missing_config_witness :
    (parse missingEnv cexCfg cexSt0).1 =
      Except.error (TSError.invalidPath
        (resolvedPathOf missingEnv cexCfg cexSt0)) ∧
    (parse eaccesEnv cexCfg cexSt0).1 =
      Except.error (TSError.fsError "EACCES") :=
  ⟨((c6_missing_config missingEnv cexCfg cexSt0).1 rfl).1,
    (c6_missing_config eaccesEnv cexCfg cexSt0).2 "EACCES" (by decide) rfl⟩

/-- Witness for C7 on malformed JSON text. -/
theorem c7_invalid_json_witness :
    (parse badJsonEnv cexCfg cexSt0).1 =
      Except.error (TSError.invalidJson
        (resolvedPathOf badJsonEnv cexCfg cexSt0)) ∧
    (parse badJsonEnv cexCfg cexSt0).2.valCalls = cexSt0.valCalls :=
  c7_invalid_json badJsonEnv cexCfg cexSt0 "not json" rfl rfl

/-- Witness for C8 at the concrete rejecting validator. -/
theorem c8_validation_error_witness :
    (parse rejEnv cexCfg cexSt0).1 =
      Except.error (TSError.tsParse
        (formatDiagnostics (rejEnv.parseJsonConfigFileContent (Json.num 7)
          (resolvedPathOf rejEnv cexCfg cexSt0)).errors)
        (resolvedPathOf rejEnv cexCfg cexSt0)
        (rejEnv.parseJsonConfigFileContent (Json.num 7)
          (resolvedPathOf rejEnv cexCfg cexSt0)).errors) :=
  c8_validation_error rejEnv cexCfg cexSt0 "7" (Json.num 7) rfl rfl
    (Or.inl rfl) (by decide)

/-- Witness for C10 at a cache prepopulated with an empty string under the
computed key. -/
theorem c10_falsy_cache_is_miss_witness :
    parse cexEnv cexCfg emptyCacheHitSt =
      parseMiss cexEnv cexCfg "7" (bumpRead (postRoot cexEnv emptyCacheHitSt)) ∧
    (parse cexEnv cexCfg emptyCacheHitSt).2.valCalls =
      emptyCacheHitSt.valCalls + 1 :=
  ⟨(c10_falsy_cache_is_miss cexEnv cexCfg emptyCacheHitSt "7" (Json.num 7)
      rfl rfl rfl).1,
    (c10_falsy_cache_is_miss cexEnv cexCfg emptyCacheHitSt "7" (Json.num 7)
      rfl rfl rfl).2.1⟩

end TSC
